import Mathlib

/-!
Shallow embedding of `script/spy.py` (a sparse-matrix "spy"-plot script):
the processor colour assignment `color_of_proc`, the line-oriented `.spy`
parser built from Python's `readline` / `str.split(' ')` / `int`, and the
rectangle geometry handed to the renderer.

Numeric computation is embedded over `ℚ`, the exact arithmetic in which the
specification states the colour formula.  An input stream is a
`List (List Char)` of lines, each line carrying its trailing newline exactly
as Python's `readline` returns it; at end of file `readline` yields the empty
string (and keeps yielding it on every further call).
-/

namespace Spy

/-- Conversion from HSV to RGB as implemented by `matplotlib.colors.hsv_to_rgb`
(the standard sextant algorithm: `i = int(h*6)`, `f = h*6 - i`, channels drawn
from `v`, `v*(1-s)`, `v*(1-s*f)`, `v*(1-s*(1-f))` according to `i % 6`),
over exact rationals. -/
def hsv_to_rgb (h s v : ℚ) : ℚ × ℚ × ℚ :=
  let i : ℤ := ⌊h * 6⌋
  let f : ℚ := h * 6 - (i : ℚ)
  let pc : ℚ := v * (1 - s)
  let qc : ℚ := v * (1 - s * f)
  let tc : ℚ := v * (1 - s * (1 - f))
  if i % 6 = 0 then (v, tc, pc)
  else if i % 6 = 1 then (qc, v, pc)
  else if i % 6 = 2 then (pc, v, tc)
  else if i % 6 = 3 then (pc, qc, v)
  else if i % 6 = 4 then (tc, pc, v)
  else (v, pc, qc)

/-- Embeds `level = ceil(log(proc + 1, 2))` from `color_of_proc`:
`Nat.clog 2` is exactly the ceiling base-2 logarithm on naturals. -/
def level (proc : ℕ) : ℕ := Nat.clog 2 (proc + 1)

/-- Embeds `denumerator = 2**level` from `color_of_proc`. -/
def denumerator (proc : ℕ) : ℚ := 2 ^ level proc

/-- Embeds `numerator = 1 + (proc - (denumerator / 2))*2` from
`color_of_proc` (Python `/` is true division, so `denumerator / 2` is exact
division in `ℚ`, not integer division). -/
def numerator (proc : ℕ) : ℚ := 1 + ((proc : ℚ) - denumerator proc / 2) * 2

/-- Embeds the wrapped hue of `color_of_proc`:
`color = numerator / denumerator`, then `color -= 0.5`, then
`if color < 0: color += 1.0`. -/
def hue (proc : ℕ) : ℚ :=
  let c := numerator proc / denumerator proc - 0.5
  if c < 0 then c + 1.0 else c

/-- Embeds `color_of_proc`: the wrapped hue fed to `hsv_to_rgb` at full
saturation and value (`matplotlib.colors.hsv_to_rgb([color, 1, 1])`). -/
def color_of_proc (proc : ℕ) : ℚ × ℚ × ℚ := hsv_to_rgb (hue proc) 1 1

/-- Spec-side hue, following §4.2 of the specification word for word:
`level = ceil(log2(proc + 1))`, `denominator = 2^level`,
`numerator = 1 + (proc - denominator/2) * 2` (floating-point, i.e. exact,
division), `raw_fraction = numerator / denominator`,
`hue = raw_fraction - 0.5`, wrapped by adding `1.0` when negative. -/
def specHue (p : ℕ) : ℚ :=
  let lv : ℕ := Nat.clog 2 (p + 1)
  let denominator : ℚ := 2 ^ lv
  let num : ℚ := 1 + ((p : ℚ) - denominator / 2) * 2
  let rawFraction : ℚ := num / denominator
  let h := rawFraction - 0.5
  if h < 0 then h + 1.0 else h

/-- One Python `readline` on the stream of remaining lines; at end of file
Python returns the empty string and the stream stays empty. -/
def readline : List (List Char) → List Char × List (List Char)
  | [] => ([], [])
  | l :: ls => (l, ls)

/-- The guard of the comment-skip loop: `len(line) == 0 or line[0] == '#'`. -/
def skipCond : List Char → Bool
  | [] => true
  | c :: _ => c = '#'

/-- Embeds the title loop
`line = fin.readline(); while (len(line) == 0 or line[0] == '#'): line = fin.readline(); title = line`.
`fuel` bounds the number of reads; `none` means the loop has not produced a
title within `fuel` reads (for all `fuel`: the loop never terminates). -/
def readTitle : ℕ → List (List Char) → Option (List Char × List (List Char))
  | 0, _ => none
  | fuel + 1, ls =>
    let r := readline ls
    if skipCond r.1 then readTitle fuel r.2 else some (r.1, r.2)

/-- Whitespace characters stripped by Python's `int(str)`. -/
def isPySpace (c : Char) : Bool :=
  c = ' ' || c = '\t' || c = '\n' || c = '\r' || c = '\x0b' || c = '\x0c'

/-- Value of a run of decimal digits. -/
def digitsVal (ds : List Char) : ℕ :=
  ds.foldl (fun a c => 10 * a + (c.toNat - 48)) 0

/-- Strip leading and trailing whitespace, as Python's `int` does. -/
def pyStrip (s : List Char) : List Char :=
  ((s.dropWhile isPySpace).reverse.dropWhile isPySpace).reverse

/-- Embeds Python's `int(token)` on the tokens the script feeds it: strip
surrounding whitespace, then an optional sign followed by a nonempty run of
decimal digits; `none` models the `ValueError` raised otherwise. -/
def pyInt (s : List Char) : Option ℤ :=
  match pyStrip s with
  | [] => none
  | '+' :: ds => if ds ≠ [] ∧ ds.all (·.isDigit) then some (digitsVal ds : ℤ) else none
  | '-' :: ds => if ds ≠ [] ∧ ds.all (·.isDigit) then some (-(digitsVal ds : ℤ)) else none
  | ds => if ds.all (·.isDigit) then some (digitsVal ds : ℤ) else none

/-- Python's `str.split(' ')`: split at every single space, keeping empty
fields (`splitSp s []` is `s.split(' ')`). -/
def splitSp : List Char → List Char → List (List Char)
  | [], acc => [acc.reverse]
  | c :: cs, acc => if c = ' ' then acc.reverse :: splitSp cs [] else splitSp cs (c :: acc)

/-- Embeds `i, j, p = map(int, line.split(' '))` (and identically
`m, n, nz = ...`): exactly three fields, each an integer; `none` models the
`ValueError` raised on a wrong field count or a non-integer token. -/
def parse3 (line : List Char) : Option (ℤ × ℤ × ℤ) :=
  match splitSp line [] with
  | [a, b, c] =>
    match pyInt a, pyInt b, pyInt c with
    | some x, some y, some z => some (x, y, z)
    | _, _, _ => none
  | _ => none

/-- Embeds the data loop
`for _ in range(0, nz): i, j, p = map(int, fin.readline().split(' '))`,
collecting the parsed triples in order. -/
def readEntries : ℕ → List (List Char) → Option (List (ℤ × ℤ × ℤ) × List (List Char))
  | 0, ls => some ([], ls)
  | n + 1, ls =>
    let r := readline ls
    match parse3 r.1, readEntries n r.2 with
    | some e, some (es, rest) => some (e :: es, rest)
    | _, _ => none

/-- Result of the parsing pass: title line, the three header integers, and
the ordered nonzero entries. -/
structure SpyData where
  title : List Char
  rows : ℤ
  cols : ℤ
  nz : ℤ
  entries : List (ℤ × ℤ × ℤ)
deriving DecidableEq

/-- Embeds the whole parsing pass of the script: skip loop and title, then
`m, n, nz = map(int, fin.readline().split(' '))`, then `nz` data lines
(`range(0, nz)` is empty for negative `nz`, hence `Int.toNat`). -/
def parseSpy (fuel : ℕ) (ls : List (List Char)) : Option SpyData :=
  match readTitle fuel ls with
  | none => none
  | some (t, ls1) =>
    let r := readline ls1
    match parse3 r.1 with
    | none => none
    | some mnz =>
      match readEntries mnz.2.2.toNat r.2 with
      | none => none
      | some (es, _) => some ⟨t, mnz.1, mnz.2.1, mnz.2.2, es⟩

/-- Embeds `marker_size = 0.8`. -/
def marker_size : ℚ := 0.8

/-- Embeds `marker_offset = 0.5 * (1 - marker_size)`. -/
def marker_offset : ℚ := 0.5 * (1 - marker_size)

/-- An axis-aligned rectangle with a fill colour, as handed to
`patches.Rectangle((x, y), width, height, color=fill)`. -/
structure Rect where
  x : ℚ
  y : ℚ
  width : ℚ
  height : ℚ
  fill : ℚ × ℚ × ℚ
deriving DecidableEq

/-- Embeds `patches.Rectangle((j + marker_offset, i + marker_offset),
marker_size, marker_size, color=color_of_proc(p))` for the entry `(i, j, p)`;
`p` is non-negative for every meaningful input (a negative `p` makes the
script's `log(p + 1, 2)` raise a domain error). -/
def rectOf (e : ℤ × ℤ × ℤ) : Rect :=
  ⟨(e.2.1 : ℚ) + marker_offset, (e.1 : ℚ) + marker_offset, marker_size, marker_size,
    color_of_proc e.2.2.toNat⟩

/-- Embeds `plt.xlim([1, n])` and `plt.ylim([m, 1])`: the pair of axis ranges. -/
def axisLimits (m n : ℤ) : (ℚ × ℚ) × (ℚ × ℚ) := ((1, (n : ℚ)), ((m : ℚ), 1))

/-- Shorthand turning a string literal into the character list of a line. -/
def chars (s : String) : List Char := s.data

/-- The five-line sample input of the end-to-end scenario in §8 of the
specification, with each line as `readline` returns it. -/
def sampleLines : List (List Char) :=
  [chars "# test\n", chars "Title\n", chars "3 3 2\n", chars "1 1 0\n", chars "2 2 1\n"]

/-- Each RGB channel of a colour triple lies in the closed unit interval. -/
def inRGB (c : ℚ × ℚ × ℚ) : Prop :=
  0 ≤ c.1 ∧ c.1 ≤ 1 ∧ 0 ≤ c.2.1 ∧ c.2.1 ≤ 1 ∧ 0 ≤ c.2.2 ∧ c.2.2 ≤ 1

section Lemmas

/-- Characterisation of the ceiling base-2 logarithm on `(2^(L-1), 2^L]`. -/
lemma clog2_eq_of (n L : ℕ) (hL : 1 ≤ L) (h1 : 2 ^ (L - 1) < n) (h2 : n ≤ 2 ^ L) :
    Nat.clog 2 n = L := by
  have ha : Nat.clog 2 n ≤ L := (Nat.le_pow_iff_clog_le (by norm_num)).1 h2
  have hb : L - 1 < Nat.clog 2 n := (Nat.pow_lt_iff_lt_clog (by norm_num)).1 h1
  omega

lemma two_pow_succ_sub_one (L : ℕ) (hL : 1 ≤ L) : 2 ^ L = 2 * 2 ^ (L - 1) := by
  conv_lhs => rw [show L = (L - 1) + 1 by omega]
  ring

/-- The tree level of the id `2^(L-1) + j` is `L` whenever `j < 2^(L-1)`. -/
lemma level_decomp (L j : ℕ) (hL : 1 ≤ L) (hj : j < 2 ^ (L - 1)) :
    level (2 ^ (L - 1) + j) = L := by
  have hpow := two_pow_succ_sub_one L hL
  exact clog2_eq_of _ _ hL (by omega) (by omega)

/-- Every positive processor id decomposes as `2^(L-1) + j` with `L` its
level and `j < 2^(L-1)`. -/
lemma exists_decomp (p : ℕ) (hp : 1 ≤ p) :
    ∃ L j, 1 ≤ L ∧ j < 2 ^ (L - 1) ∧ p = 2 ^ (L - 1) + j := by
  have hclog : 1 ≤ Nat.clog 2 (p + 1) := Nat.clog_pos (by norm_num) (by omega)
  have hup : p + 1 ≤ 2 ^ Nat.clog 2 (p + 1) := Nat.le_pow_clog (by norm_num) _
  have hlow : 2 ^ (Nat.clog 2 (p + 1) - 1) < p + 1 :=
    (Nat.pow_lt_iff_lt_clog (by norm_num)).2 (by omega)
  have hpow := two_pow_succ_sub_one (Nat.clog 2 (p + 1)) hclog
  exact ⟨Nat.clog 2 (p + 1), p - 2 ^ (Nat.clog 2 (p + 1) - 1), hclog, by omega, by omega⟩

/-- Numerator of the wrapped hue of the id `2^(L-1) + j` over the common
denominator `2^L`. -/
def hueNum (L j : ℕ) : ℕ :=
  if 2 * j + 1 < 2 ^ (L - 1) then 2 * j + 1 + 2 ^ (L - 1) else 2 * j + 1 - 2 ^ (L - 1)

/-- Closed form of the wrapped hue on level `L ≥ 1`. -/
lemma hue_decomp (L j : ℕ) (hL : 1 ≤ L) (hj : j < 2 ^ (L - 1)) :
    hue (2 ^ (L - 1) + j) = (hueNum L j : ℚ) / 2 ^ L := by
  have hlev : level (2 ^ (L - 1) + j) = L := level_decomp L j hL hj
  have hpow : (2 : ℚ) ^ L = 2 * 2 ^ (L - 1) := by
    conv_lhs => rw [show L = (L - 1) + 1 by omega]
    ring
  have hne : (2 : ℚ) ^ L ≠ 0 := by positivity
  have hraw : numerator (2 ^ (L - 1) + j) / denumerator (2 ^ (L - 1) + j)
      = (2 * j + 1 : ℚ) / 2 ^ L := by
    unfold numerator denumerator
    rw [hlev]
    push_cast
    field_simp
    rw [hpow]
    ring
  have hcond : ((2 * j + 1 : ℚ) / 2 ^ L - 0.5 < 0) ↔ 2 * j + 1 < 2 ^ (L - 1) := by
    rw [sub_neg, div_lt_iff₀ (by positivity),
      show (0.5 : ℚ) * 2 ^ L = ((2 ^ (L - 1) : ℕ) : ℚ) by push_cast; rw [hpow]; ring]
    exact_mod_cast Iff.rfl
  simp only [hue, hraw]
  by_cases hc : 2 * j + 1 < 2 ^ (L - 1)
  · rw [if_pos (hcond.2 hc), hueNum, if_pos hc]
    push_cast
    field_simp
    rw [hpow]
    ring
  · rw [if_neg (fun h => hc (hcond.1 h)), hueNum, if_neg hc,
      Nat.cast_sub (by omega : 2 ^ (L - 1) ≤ 2 * j + 1)]
    push_cast
    field_simp
    rw [hpow]
    ring

lemma hueNum_lt (L j : ℕ) (hL : 1 ≤ L) (hj : j < 2 ^ (L - 1)) : hueNum L j < 2 ^ L := by
  have hpow := two_pow_succ_sub_one L hL
  unfold hueNum
  split_ifs <;> omega

lemma hueNum_odd (L j : ℕ) (hL : 2 ≤ L) (_hj : j < 2 ^ (L - 1)) : hueNum L j % 2 = 1 := by
  have hpow := two_pow_succ_sub_one (L - 1) (by omega)
  have h2 : 2 ^ (L - 1) % 2 = 0 := by
    rw [show L - 1 = (L - 1 - 1) + 1 by omega, pow_succ]
    omega
  unfold hueNum
  split_ifs <;> omega

lemma hueNum_inj (L j1 j2 : ℕ) (h1 : j1 < 2 ^ (L - 1)) (h2 : j2 < 2 ^ (L - 1))
    (he : hueNum L j1 = hueNum L j2) : j1 = j2 := by
  unfold hueNum at he
  split_ifs at he <;> omega

/-- Two ids on levels `Lp < Lq` can not share a wrapped hue: scaling to the
common denominator, the low-level numerator becomes even while the
high-level numerator is odd. -/
lemma no_cross (Lp jp Lq jq : ℕ) (hLp : 1 ≤ Lp) (hjq : jq < 2 ^ (Lq - 1))
    (hlt : Lp < Lq) (hnat : hueNum Lp jp * 2 ^ Lq = hueNum Lq jq * 2 ^ Lp) : False := by
  have hodd : hueNum Lq jq % 2 = 1 := hueNum_odd Lq jq (by omega) hjq
  have hexp : (2 : ℕ) ^ (Lq - Lp) * 2 ^ Lp = 2 ^ Lq := by
    rw [← pow_add]
    congr 1
    omega
  have hnat' : (hueNum Lp jp * 2 ^ (Lq - Lp)) * 2 ^ Lp = hueNum Lq jq * 2 ^ Lp := by
    rw [mul_assoc, hexp, hnat]
  have hcancel : hueNum Lp jp * 2 ^ (Lq - Lp) = hueNum Lq jq :=
    Nat.eq_of_mul_eq_mul_right (pow_pos (by norm_num) Lp) hnat'
  have hdvd : 2 ∣ hueNum Lp jp * 2 ^ (Lq - Lp) :=
    Dvd.dvd.mul_left (dvd_pow_self 2 (by omega)) _
  omega

/-- A ℚ-equality of hue fractions turns into a ℕ-equality of cross products. -/
lemma frac_eq_nat (a La b Lb : ℕ)
    (heq : (a : ℚ) / 2 ^ La = (b : ℚ) / 2 ^ Lb) : a * 2 ^ Lb = b * 2 ^ La := by
  rw [div_eq_div_iff (by positivity) (by positivity)] at heq
  exact_mod_cast heq

lemma hue_zero : hue 0 = 1 / 2 := by
  simp [hue, numerator, denumerator, level, Nat.clog_one_right]
  norm_num

/-- No positive id has the wrapped hue `1/2` of id `0`. -/
lemma hue_ne_half (q : ℕ) (hq : 1 ≤ q) : hue q ≠ 1 / 2 := by
  obtain ⟨L, j, hL, hj, hdec⟩ := exists_decomp q hq
  rw [hdec, hue_decomp L j hL hj]
  intro h
  have hnat : hueNum L j * 2 ^ 1 = 1 * 2 ^ L := by
    apply frac_eq_nat
    rw [h]
    norm_num
  have hpow := two_pow_succ_sub_one L hL
  have hNval : hueNum L j = 2 ^ (L - 1) := by omega
  rcases Nat.lt_or_ge L 2 with hL1 | hL2
  · have hLe : L = 1 := by omega
    subst hLe
    have hj0 : j = 0 := by simpa using hj
    subst hj0
    simp [hueNum] at hNval
  · have hodd : hueNum L j % 2 = 1 := hueNum_odd L j hL2 hj
    have h2 : 2 ^ (L - 1) % 2 = 0 := by
      rw [show L - 1 = (L - 1 - 1) + 1 by omega, pow_succ]
      omega
    omega

/-- Core of injectivity: equal wrapped hues force equal ids. -/
lemma eq_of_hue_eq (p q : ℕ) (heq : hue p = hue q) : p = q := by
  rcases Nat.eq_zero_or_pos p with hp | hp
  · rcases Nat.eq_zero_or_pos q with hq | hq
    · omega
    · exfalso
      apply hue_ne_half q hq
      rw [← heq, hp, hue_zero]
  · rcases Nat.eq_zero_or_pos q with hq | hq
    · exfalso
      apply hue_ne_half p hp
      rw [heq, hq, hue_zero]
    · obtain ⟨Lp, jp, hLp, hjp, hdp⟩ := exists_decomp p hp
      obtain ⟨Lq, jq, hLq, hjq, hdq⟩ := exists_decomp q hq
      rw [hdp, hue_decomp Lp jp hLp hjp, hdq, hue_decomp Lq jq hLq hjq] at heq
      have hnat := frac_eq_nat _ _ _ _ heq
      rcases Nat.lt_trichotomy Lp Lq with hlt | hE | hgt
      · exact absurd hnat (fun h => no_cross Lp jp Lq jq hLp hjq hlt h)
      · subst hE
        have hcancel : hueNum Lp jp = hueNum Lp jq :=
          Nat.eq_of_mul_eq_mul_right (pow_pos (by norm_num) Lp) hnat
        have := hueNum_inj Lp jp jq hjp hjq hcancel
        omega
      · exact absurd hnat.symm (fun h => no_cross Lq jq Lp jp hLq hjp hgt h)

/-- The wrapped hue lies in `[0, 1)` for every id. -/
lemma hue_mem_Ico (p : ℕ) : 0 ≤ hue p ∧ hue p < 1 := by
  rcases Nat.eq_zero_or_pos p with hp | hp
  · rw [hp, hue_zero]
    norm_num
  · obtain ⟨L, j, hL, hj, hdec⟩ := exists_decomp p hp
    rw [hdec, hue_decomp L j hL hj]
    have hlt : hueNum L j < 2 ^ L := hueNum_lt L j hL hj
    constructor
    · positivity
    · rw [div_lt_one (by positivity)]
      exact_mod_cast hlt

/-- At full saturation and value every channel of `hsv_to_rgb` lies in
`[0, 1]`: each channel is `0`, `1`, `f` or `1 - f` with `f` a fractional
part. -/
lemma hsv_channels (h : ℚ) : inRGB (hsv_to_rgb h 1 1) := by
  have hf1 : ((⌊h * 6⌋ : ℤ) : ℚ) ≤ h * 6 := Int.floor_le _
  have hf2 : h * 6 < ((⌊h * 6⌋ : ℤ) : ℚ) + 1 := Int.lt_floor_add_one _
  simp only [hsv_to_rgb, inRGB]
  split_ifs <;> refine ⟨?_, ?_, ?_, ?_, ?_, ?_⟩ <;> norm_num <;>
    linarith [Int.fract_nonneg (h * 6), Int.fract_lt_one (h * 6)]

/-- A data line splitting into fewer than three fields fails to parse. -/
lemma parse3_none_of_short (line : List Char) (h : (splitSp line []).length < 3) :
    parse3 line = none := by
  unfold parse3
  rcases hts : splitSp line [] with _ | ⟨a, _ | ⟨b, _ | ⟨c, _ | ⟨d, rest⟩⟩⟩⟩ <;>
    first
      | rfl
      | (exfalso; rw [hts] at h; simp at h)

/-- A data line one of whose fields is not an integer fails to parse. -/
lemma parse3_none_of_token (line t : List Char) (ht : t ∈ splitSp line [])
    (hnone : pyInt t = none) : parse3 line = none := by
  unfold parse3
  rcases hts : splitSp line [] with _ | ⟨a, _ | ⟨b, _ | ⟨c, _ | ⟨d, rest⟩⟩⟩⟩ <;> try rfl
  rw [hts] at ht
  rcases h1 : pyInt a with _ | x <;> rcases h2 : pyInt b with _ | y <;>
    rcases h3 : pyInt c with _ | z <;> simp only [h1, h2, h3] <;> try rfl
  exfalso
  simp at ht
  rcases ht with rfl | rfl | rfl <;> simp_all

/-- Reading past the end of the stream yields the default value. -/
lemma getD_of_len_le {α : Type} (ls : List α) (k : ℕ) (d : α) (h : ls.length ≤ k) :
    ls.getD k d = d := by
  induction ls generalizing k with
  | nil => rfl
  | cons a as ih =>
    cases k with
    | zero => simp at h
    | succ k2 =>
      rw [List.getD_cons_succ]
      exact ih k2 (by simp at h; omega)

/-- If any of the first `nz` lines the loop reads fails to parse, the whole
data loop fails. -/
lemma readEntries_none_of_bad (nz : ℕ) (ls : List (List Char)) (k : ℕ)
    (hk : k < nz) (hbad : parse3 (ls.getD k []) = none) :
    readEntries nz ls = none := by
  induction nz generalizing ls k with
  | zero => omega
  | succ n ih =>
    cases ls with
    | nil =>
      have h0 : parse3 ([] : List Char) = none := by decide
      simp [readEntries, readline, h0]
    | cons l ls2 =>
      cases k with
      | zero =>
        rw [List.getD_cons_zero] at hbad
        simp [readEntries, readline, hbad]
      | succ k2 =>
        rw [List.getD_cons_succ] at hbad
        have h2 := ih ls2 k2 (by omega) hbad
        rcases hp : parse3 l with _ | e
        · simp [readEntries, readline, hp]
        · simp [readEntries, readline, hp, h2]

/-- Branch form of `hsv_to_rgb` at full saturation and value: the channels
are `0`, `1`, the fractional part `f = h * 6 - floor (h * 6)` and `1 - f`,
arranged by sextant. -/
lemma hsv_branch (h : ℚ) :
    hsv_to_rgb h 1 1 =
      if (⌊h * 6⌋ : ℤ) % 6 = 0 then ((1 : ℚ), h * 6 - ((⌊h * 6⌋ : ℤ) : ℚ), (0 : ℚ))
      else if (⌊h * 6⌋ : ℤ) % 6 = 1 then (1 - (h * 6 - ((⌊h * 6⌋ : ℤ) : ℚ)), 1, 0)
      else if (⌊h * 6⌋ : ℤ) % 6 = 2 then (0, 1, h * 6 - ((⌊h * 6⌋ : ℤ) : ℚ))
      else if (⌊h * 6⌋ : ℤ) % 6 = 3 then (0, 1 - (h * 6 - ((⌊h * 6⌋ : ℤ) : ℚ)), 1)
      else if (⌊h * 6⌋ : ℤ) % 6 = 4 then (h * 6 - ((⌊h * 6⌋ : ℤ) : ℚ), 0, 1)
      else (1, 0, 1 - (h * 6 - ((⌊h * 6⌋ : ℤ) : ℚ))) := by
  simp only [hsv_to_rgb]
  split_ifs <;> norm_num

set_option maxHeartbeats 1000000 in
/-- At full saturation and value `hsv_to_rgb` is injective on hues in
`[0, 1)`: the sextant index and the fractional part are both recoverable
from the channel pattern. -/
lemma hsv_inj_on (h1 h2 : ℚ) (ha1 : 0 ≤ h1) (hb1 : h1 < 1) (ha2 : 0 ≤ h2) (hb2 : h2 < 1)
    (he : hsv_to_rgb h1 1 1 = hsv_to_rgb h2 1 1) : h1 = h2 := by
  rw [hsv_branch, hsv_branch] at he
  have hi1a : (0 : ℤ) ≤ ⌊h1 * 6⌋ := Int.floor_nonneg.2 (by linarith)
  have hi1b : ⌊h1 * 6⌋ < 6 := by
    have hq : ((⌊h1 * 6⌋ : ℤ) : ℚ) < 6 := lt_of_le_of_lt (Int.floor_le _) (by linarith)
    exact_mod_cast hq
  have hi2a : (0 : ℤ) ≤ ⌊h2 * 6⌋ := Int.floor_nonneg.2 (by linarith)
  have hi2b : ⌊h2 * 6⌋ < 6 := by
    have hq : ((⌊h2 * 6⌋ : ℤ) : ℚ) < 6 := lt_of_le_of_lt (Int.floor_le _) (by linarith)
    exact_mod_cast hq
  have hf1a : ((⌊h1 * 6⌋ : ℤ) : ℚ) ≤ h1 * 6 := Int.floor_le _
  have hf1b : h1 * 6 < ((⌊h1 * 6⌋ : ℤ) : ℚ) + 1 := Int.lt_floor_add_one _
  have hf2a : ((⌊h2 * 6⌋ : ℤ) : ℚ) ≤ h2 * 6 := Int.floor_le _
  have hf2b : h2 * 6 < ((⌊h2 * 6⌋ : ℤ) : ℚ) + 1 := Int.lt_floor_add_one _
  rw [Int.emod_eq_of_lt hi1a hi1b, Int.emod_eq_of_lt hi2a hi2b] at he
  generalize hg1 : ⌊h1 * 6⌋ = i1 at he hi1a hi1b hf1a hf1b
  generalize hg2 : ⌊h2 * 6⌋ = i2 at he hi2a hi2b hf2a hf2b
  interval_cases i1 <;> interval_cases i2 <;>
    norm_num [Prod.mk.injEq] at he <;>
    first
      | (obtain ⟨e1, e2, e3⟩ := he; linarith)
      | (obtain ⟨e1, e2⟩ := he; linarith)

end Lemmas

/-- C1: for every non-negative integer `proc`, `color_of_proc` returns
exactly `hsv_to_rgb (hue, 1, 1)` with the hue computed by the
specification's §4.2 formula (`specHue`: ceiling base-2 log level, powers of
two, true division, wrap by `+ 1.0` when negative); in particular the hue of
`proc = 0` is `0.5`, so `color_of_proc 0 = hsv_to_rgb 0.5 1 1`. -/
theorem c1_color_matches_spec_formula :
    (∀ p : ℕ, color_of_proc p = hsv_to_rgb (specHue p) 1 1) ∧
      specHue 0 = 0.5 ∧ color_of_proc 0 = hsv_to_rgb 0.5 1 1 := by
  have hh : ∀ p : ℕ, hue p = specHue p := fun p => rfl
  have h0 : specHue 0 = 0.5 := by
    rw [← hh, hue_zero]
    norm_num
  exact ⟨fun p => by rw [color_of_proc, hh], h0, by rw [color_of_proc, hh, h0]⟩

/-- C2: for every non-negative integer `proc` the colour returned by
`color_of_proc` has all three RGB channels inside `[0, 1]`, and the wrapped
hue itself lies in `[0, 1)`. -/
theorem c2_color_in_unit_cube (p : ℕ) :
    (0 ≤ hue p ∧ hue p < 1) ∧ inRGB (color_of_proc p) :=
  ⟨hue_mem_Ico p, hsv_channels (hue p)⟩

/-- C3: ids of tree level 2 get maximally separated hues: the code computes
hue `0.75` for proc 2 and hue `0.25` for proc 3, differing by exactly `0.5`. -/
theorem c3_level2_hues_maximally_separated :
    hue 2 = 0.75 ∧ hue 3 = 0.25 ∧ hue 2 - hue 3 = 0.5 := by
  have h2 := hue_decomp 2 0 (by norm_num) (by norm_num)
  have h3 := hue_decomp 2 1 (by norm_num) (by norm_num)
  norm_num [hueNum] at h2 h3
  exact ⟨by rw [h2]; norm_num, by rw [h3]; norm_num, by rw [h2, h3]; norm_num⟩

/-- C4 counterexample: a blank line before the title is not skipped.  A blank
file line reaches the loop as `"\n"` (length 1, first character not `'#'`),
fails the guard `len(line) == 0 or line[0] == '#'`, and is taken as the
title, contradicting the claim that the title would be the later `"Title\n"`
line. -/
theorem c4_blank_line_becomes_title :
    readTitle 10 [chars "# c\n", chars "\n", chars "Title\n"] =
      some (chars "\n", [chars "Title\n"]) := by decide

/-- C4 (amended): the parser skips exactly the leading lines satisfying the
loop guard — lines of length zero (produced only at end of file) or lines
whose first character is `'#'` — and takes the first line failing the guard
as the title; a blank line of the file arrives as `"\n"`, fails the guard,
and becomes the title instead of being skipped. -/
theorem c4_comment_skip (pre : List (List Char)) (t : List Char) (rest : List (List Char))
    (hpre : ∀ l ∈ pre, skipCond l = true) (ht : skipCond t = false) :
    readTitle (pre.length + 1) (pre ++ t :: rest) = some (t, rest) := by
  induction pre with
  | nil => simp [readTitle, readline, ht]
  | cons a as ih =>
    have ha : skipCond a = true := hpre a (by simp)
    have ih2 := ih fun l hl => hpre l (by simp [hl])
    simpa [readTitle, readline, ha] using ih2

/-- Witness for the amended C4: one comment line, then the title line. -/
theorem c4_comment_skip_witness :
    readTitle ([chars "# c\n"].length + 1) [chars "# c\n", chars "Title\n"] =
      some (chars "Title\n", []) :=
  c4_comment_skip [chars "# c\n"] (chars "Title\n") [] (by decide) (by decide)

/-- C5: the header line `"3 3 2"` parses to the three integers, but a
historical fourth integer on the dimension line makes
`m, n, nz = map(int, line.split(' '))` fail (too many values to unpack)
instead of being tolerated and ignored — although the script's own format
comment documents the line as `m n z procs`. -/
theorem c5_fourth_header_integer_fails :
    parse3 (chars "3 3 2\n") = some (3, 3, 2) ∧ parse3 (chars "3 3 2 4\n") = none := by
  constructor <;> decide

/-- C6: a malformed data section makes the parser fail rather than succeed:
whenever the stream holds fewer than `nz` data lines, or among the first
`nz` lines the loop reads (with the end-of-file empty line standing in once
the stream is exhausted) there is one splitting into fewer than three
whitespace-separated fields or one containing a non-integer token, the data
loop returns no result. -/
theorem c6_malformed_data_rejected (nz : ℕ) (ls : List (List Char))
    (h : ls.length < nz ∨
      ∃ k, k < nz ∧ ((splitSp (ls.getD k []) []).length < 3 ∨
        ∃ t ∈ splitSp (ls.getD k []) [], pyInt t = none)) :
    readEntries nz ls = none := by
  rcases h with hshort | ⟨k, hk, hbad⟩
  · refine readEntries_none_of_bad nz ls ls.length hshort ?_
    rw [getD_of_len_le ls ls.length [] le_rfl]
    decide
  · refine readEntries_none_of_bad nz ls k hk ?_
    rcases hbad with hlen | ⟨t, ht, hnone⟩
    · exact parse3_none_of_short _ hlen
    · exact parse3_none_of_token _ t ht hnone

/-- Witness for C6: `nz` declared as 5 with only 3 data lines present; a
two-field data line and a non-integer token, each inside a stream holding
enough lines. -/
theorem c6_malformed_data_rejected_witness :
    readEntries 5 [chars "1 1 0\n", chars "2 2 1\n", chars "3 3 0\n"] = none ∧
      readEntries 2 [chars "1 1\n", chars "2 2 1\n"] = none ∧
      readEntries 2 [chars "1 a 0\n", chars "2 2 1\n"] = none :=
  ⟨c6_malformed_data_rejected 5 _ (Or.inl (by decide)),
    c6_malformed_data_rejected 2 _ (Or.inr ⟨0, by decide, Or.inl (by decide)⟩),
    c6_malformed_data_rejected 2 _
      (Or.inr ⟨0, by decide, Or.inr ⟨chars "a", by decide, by decide⟩⟩)⟩

/-- C7: on a file consisting only of comment lines the skip loop never
terminates: at end of file `readline` returns the empty string, whose length
is 0, so the guard `len(line) == 0 or line[0] == '#'` stays true and no
amount of fuel produces a title — the script hangs instead of terminating
with a reported ParseError. -/
theorem c7_eof_during_comment_skip_loops_forever (fuel : ℕ) :
    readTitle fuel [chars "# test\n"] = none := by
  have hnil : ∀ f : ℕ, readTitle f ([] : List (List Char)) = none := by
    intro f
    induction f with
    | zero => rfl
    | succ n ih => simpa [readTitle, readline, skipCond] using ih
  cases fuel with
  | zero => rfl
  | succ n =>
    have hc : skipCond (chars "# test\n") = true := by decide
    simpa [readTitle, readline, hc] using hnil n

/-- C8 counterexample: the end-to-end sample does not yield a descriptor
whose title is the bare string `"Title"`: `readline` keeps the trailing
newline, so the parsed title is `"Title\n"`. -/
theorem c8_title_is_not_bare_title :
    parseSpy 10 sampleLines ≠
      some ⟨chars "Title", 3, 3, 2, [(1, 1, 0), (2, 2, 1)]⟩ := by decide

/-- C8 (amended): the end-to-end sample parses to the descriptor with title
the full line `"Title\n"`, rows 3, cols 3, nonzero count 2 and the ordered
entries `[(1,1,0), (2,2,1)]`, and the two drawn squares are filled with
`color_of_proc 0` and `color_of_proc 1` respectively. -/
theorem c8_end_to_end_sample :
    parseSpy 10 sampleLines =
      some ⟨chars "Title\n", 3, 3, 2, [(1, 1, 0), (2, 2, 1)]⟩ ∧
    ((parseSpy 10 sampleLines).map fun d => d.entries.map fun e => (rectOf e).fill) =
      some [color_of_proc 0, color_of_proc 1] := by
  exact ⟨by decide, rfl⟩

/-- C9: each nonzero `(i, j, p)` is drawn as a square of side
`marker_size = 0.8` with lower-left corner `(j + 0.1, i + 0.1)` where the
offset is `(1 - marker_size) / 2 = 0.1`, hence horizontally centred in the
unit cell, and the axis limits are `x ∈ [1, n]`, `y ∈ [m, 1]` with the row
axis inverted. -/
theorem c9_marker_geometry (i j p m n : ℤ) :
    marker_size = 0.8 ∧
      marker_offset = (1 - marker_size) / 2 ∧
      marker_offset = 0.1 ∧
      (rectOf (i, j, p)).x = (j : ℚ) + 0.1 ∧
      (rectOf (i, j, p)).y = (i : ℚ) + 0.1 ∧
      (rectOf (i, j, p)).width = 0.8 ∧
      (rectOf (i, j, p)).height = 0.8 ∧
      (rectOf (i, j, p)).x + marker_size / 2 = (j : ℚ) + 1 / 2 ∧
      axisLimits m n = ((1, (n : ℚ)), ((m : ℚ), 1)) := by
  refine ⟨by norm_num [marker_size], by rw [marker_offset]; ring, ?_, ?_, ?_, ?_, ?_, ?_, rfl⟩ <;>
    · norm_num [rectOf, marker_offset, marker_size]
      try ring

/-- C10: the hue assignment is injective over exact rational arithmetic:
distinct non-negative processor ids always receive distinct wrapped hues,
and hence distinct colors from `color_of_proc`, since `hsv_to_rgb` at full
saturation and value is injective on the hue range `[0, 1)`. -/
theorem c10_hue_injective (p q : ℕ) (hpq : p ≠ q) :
    hue p ≠ hue q ∧ color_of_proc p ≠ color_of_proc q := by
  have hh : hue p ≠ hue q := fun h => hpq (eq_of_hue_eq p q h)
  exact ⟨hh, fun hc => hh (hsv_inj_on (hue p) (hue q) (hue_mem_Ico p).1 (hue_mem_Ico p).2
    (hue_mem_Ico q).1 (hue_mem_Ico q).2 hc)⟩

/-- Witness for C10 at the ids 2 and 3. -/
theorem c10_hue_injective_witness :
    hue 2 ≠ hue 3 ∧ color_of_proc 2 ≠ color_of_proc 3 :=
  c10_hue_injective 2 3 (by norm_num)

end Spy
